import Mathlib

set_option maxHeartbeats 1000000
set_option maxRecDepth 4000

/-!
Verification development for the PR-diff processing core
(`app/algo/pr_processing.py`): unified-diff parsing into structured
file patches, prompt rendering with a character budget, change
summarization, and token-bounded chunk splitting.

Strings are modelled as lists of characters (`Str`); Python integer
arithmetic is modelled on `Nat` (all quantities involved are
non-negative); `int(x / 3.5)` on a non-negative value is modelled as
`x * 2 / 7` in natural division.
-/

abbrev Str := List Char

def str (s : String) : Str := s.data

/-- ASCII whitespace as stripped by Python's `str.strip()` and matched
by the regex class `\s`. -/
def isPySpace (c : Char) : Bool :=
  c = ' ' || c = '\t' || c = '\n' || c = '\r' || c = '\x0b' || c = '\x0c'

/-- Python: `not diff_text or not diff_text.strip()`. -/
def isBlank (d : Str) : Bool := d.all isPySpace

/-- Python: `diff_text.split("\n")`. -/
def splitNl : Str → List Str
  | [] => [[]]
  | c :: cs =>
    match splitNl cs with
    | [] => [[]]
    | l :: ls => if c = '\n' then [] :: l :: ls else (c :: l) :: ls

/-- Value of a decimal digit string, as Python's `int`. -/
def natOfDigits (ds : Str) : Nat := ds.foldl (fun acc c => 10 * acc + (c.toNat - 48)) 0

def digitChar : Nat → Char
  | 0 => '0' | 1 => '1' | 2 => '2' | 3 => '3' | 4 => '4'
  | 5 => '5' | 6 => '6' | 7 => '7' | 8 => '8' | _ => '9'

def natDigitsCore : Nat → Nat → Str → Str
  | 0, _, acc => acc
  | fuel + 1, n, acc =>
    if n < 10 then digitChar n :: acc
    else natDigitsCore fuel (n / 10) (digitChar (n % 10) :: acc)

/-- Decimal rendering of a natural number, as Python's `str`/f-string. -/
def natDigits (n : Nat) : Str := natDigitsCore (n + 1) n []

/-- Python's format spec `{x:>4}`: right-align in a field of width 4. -/
def padLeft4 (s : Str) : Str := List.replicate (4 - s.length) ' ' ++ s

/-- Python: `pat in s` (substring containment). -/
def containsStr (pat : Str) : Str → Bool
  | [] => pat.isEmpty
  | c :: cs => pat.isPrefixOf (c :: cs) || containsStr pat cs

-- ── Data structures ─────────────────────────────────────────────────────────

/-- A single line within a diff hunk (`HunkLine`).  The Python field
`prefix` is named `pfx` here. -/
structure HunkLine where
  content : Str
  line_number_new : Option Nat := none
  line_number_old : Option Nat := none
  pfx : Char := ' '
deriving DecidableEq

def isNewSide (l : HunkLine) : Bool := l.pfx = '+' || l.pfx = ' '

def isOldSide (l : HunkLine) : Bool := l.pfx = '-' || l.pfx = ' '

/-- A single `@@`-block from a unified diff (`DiffHunk`). -/
structure DiffHunk where
  header : Str
  old_start : Nat := 0
  old_count : Nat := 0
  new_start : Nat := 0
  new_count : Nat := 0
  lines : List HunkLine := []
  section_header : Str := []
deriving DecidableEq

def DiffHunk.new_lines (h : DiffHunk) : List HunkLine := h.lines.filter isNewSide

def DiffHunk.old_lines (h : DiffHunk) : List HunkLine := h.lines.filter isOldSide

def DiffHunk.added_lines (h : DiffHunk) : List HunkLine :=
  h.lines.filter (fun l => l.pfx = '+')

def DiffHunk.removed_lines (h : DiffHunk) : List HunkLine :=
  h.lines.filter (fun l => l.pfx = '-')

/-- All hunks for a single file in the PR diff (`FilePatch`). -/
structure FilePatch where
  filename : Str
  old_filename : Option Str := none
  hunks : List DiffHunk := []
  is_new_file : Bool := false
  is_deleted_file : Bool := false
  is_binary : Bool := false
deriving DecidableEq

def FilePatch.total_additions (p : FilePatch) : Nat :=
  (p.hunks.map (fun h => h.added_lines.length)).sum

def FilePatch.total_deletions (p : FilePatch) : Nat :=
  (p.hunks.map (fun h => h.removed_lines.length)).sum

def FilePatch.total_changes (p : FilePatch) : Nat :=
  p.total_additions + p.total_deletions

instance : Inhabited HunkLine := ⟨⟨[], none, none, ' '⟩⟩

instance : Inhabited DiffHunk := ⟨⟨[], 0, 0, 0, 0, [], []⟩⟩

instance : Inhabited FilePatch := ⟨⟨[], none, [], false, false, false⟩⟩

-- ── Header matchers (the regexes of the source) ─────────────────────────────

/-- Split at the last occurrence of `" b/"` (the greedy `(.*) b/(.*)`
of `_FILE_HEADER_RE`). -/
def splitAtLastB : Str → Option (Str × Str)
  | [] => none
  | c :: cs =>
    match splitAtLastB cs with
    | some (pre, post) => some (c :: pre, post)
    | none =>
      if (str " b/").isPrefixOf (c :: cs) then some ([], (c :: cs).drop 3) else none

/-- The regex `_FILE_HEADER_RE`: `^diff --git a/(.*) b/(.*)$`. -/
def matchFileHeader (line : Str) : Option (Str × Str) :=
  if (str "diff --git a/").isPrefixOf line then
    match splitAtLastB (line.drop 13) with
    | some (g1, g2) => some (g1, g2)
    | none => none
  else none

/-- An optional `,(\d+)` group: returns the parsed count (if present)
and the rest of the line. -/
def optCommaCount (r : Str) : Option Nat × Str :=
  match r with
  | ',' :: rest =>
    let d := rest.takeWhile Char.isDigit
    if d.isEmpty then (none, r) else (some (natOfDigits d), rest.drop d.length)
  | _ => (none, r)

/-- The regex `_HUNK_HEADER_RE`: `^@@ -(\d+)(?:,(\d+))? \+(\d+)(?:,(\d+))? @@(?:\s+(.*))?$`,
with the missing-count default of 1 already applied (`int(group or "1")`). -/
def matchHunkHeader (line : Str) : Option (Nat × Nat × Nat × Nat × Str) :=
  if (str "@@ -").isPrefixOf line then
    let r1 := line.drop 4
    let d1 := r1.takeWhile Char.isDigit
    if d1.isEmpty then none else
    let p2 := optCommaCount (r1.drop d1.length)
    if (str " +").isPrefixOf p2.2 then
      let r4 := p2.2.drop 2
      let d3 := r4.takeWhile Char.isDigit
      if d3.isEmpty then none else
      let p5 := optCommaCount (r4.drop d3.length)
      if (str " @@").isPrefixOf p5.2 then
        let r7 := p5.2.drop 3
        match r7 with
        | [] => some (natOfDigits d1, p2.1.getD 1, natOfDigits d3, p5.1.getD 1, [])
        | c :: _ =>
          if isPySpace c then
            some (natOfDigits d1, p2.1.getD 1, natOfDigits d3, p5.1.getD 1,
                  r7.dropWhile isPySpace)
          else none
      else none
    else none
  else none

-- ── Parser state and step ───────────────────────────────────────────────────

/-- The patch currently being built: its closed hunks live in `fp.hunks`,
the open hunk (Python's `current_hunk`) in `oh`. -/
structure CurPatch where
  fp : FilePatch
  oh : Option DiffHunk
deriving DecidableEq

structure PState where
  patches : List FilePatch
  cur : Option CurPatch
  new_line_no : Nat
  old_line_no : Nat
deriving DecidableEq

/-- Flush the open hunk into the patch (Python mutates the hunk in place
after appending it; flushing at patch close is observationally the same). -/
def closePatch (cp : CurPatch) : FilePatch :=
  match cp.oh with
  | none => cp.fp
  | some h => { cp.fp with hunks := cp.fp.hunks ++ [h] }

/-- One iteration of the `for raw_line in diff_text.split("\n")` loop. -/
def stepLine (s : PState) (line : Str) : PState :=
  match matchFileHeader line with
  | some (g1, g2) =>
    { s with
      patches := s.patches ++ (s.cur.map closePatch).toList,
      cur := some ⟨{ filename := g2,
                     old_filename := if g1 = g2 then none else some g1 }, none⟩ }
  | none =>
    match s.cur with
    | none => s
    | some cp =>
      if (str "new file mode").isPrefixOf line then
        { s with cur := some ⟨{ cp.fp with is_new_file := true }, cp.oh⟩ }
      else if (str "deleted file mode").isPrefixOf line then
        { s with cur := some ⟨{ cp.fp with is_deleted_file := true }, cp.oh⟩ }
      else if containsStr (str "Binary files") line then
        { s with cur := some ⟨{ cp.fp with is_binary := true }, cp.oh⟩ }
      else if (str "---").isPrefixOf line || (str "+++").isPrefixOf line then s
      else if (str "index ").isPrefixOf line then s
      else
        match matchHunkHeader line with
        | some (os, oc, ns, nc, sec) =>
          { s with
            cur := some ⟨{ cp.fp with hunks := cp.fp.hunks ++ cp.oh.toList },
                         some { header := line, old_start := os, old_count := oc,
                                new_start := ns, new_count := nc, lines := [],
                                section_header := sec }⟩,
            new_line_no := ns, old_line_no := os }
        | none =>
          match cp.oh with
          | none => s
          | some h =>
            match line with
            | '+' :: rest =>
              { s with
                cur := some ⟨cp.fp, some { h with lines := h.lines ++
                  [{ content := rest, line_number_new := some s.new_line_no,
                     pfx := '+' }] }⟩,
                new_line_no := s.new_line_no + 1 }
            | '-' :: rest =>
              { s with
                cur := some ⟨cp.fp, some { h with lines := h.lines ++
                  [{ content := rest, line_number_old := some s.old_line_no,
                     pfx := '-' }] }⟩,
                old_line_no := s.old_line_no + 1 }
            | ' ' :: rest =>
              { s with
                cur := some ⟨cp.fp, some { h with lines := h.lines ++
                  [{ content := rest, line_number_new := some s.new_line_no,
                     line_number_old := some s.old_line_no, pfx := ' ' }] }⟩,
                new_line_no := s.new_line_no + 1, old_line_no := s.old_line_no + 1 }
            | [] =>
              { s with
                cur := some ⟨cp.fp, some { h with lines := h.lines ++
                  [{ content := [], line_number_new := some s.new_line_no,
                     line_number_old := some s.old_line_no, pfx := ' ' }] }⟩,
                new_line_no := s.new_line_no + 1, old_line_no := s.old_line_no + 1 }
            | _ => s

def initPState : PState := ⟨[], none, 0, 0⟩

def finalizePState (s : PState) : List FilePatch :=
  s.patches ++ (s.cur.map closePatch).toList

def runLines (lines : List Str) : PState := lines.foldl stepLine initPState

/-- The function `parse_diff`. -/
def parse_diff (d : Str) : List FilePatch :=
  if isBlank d then [] else finalizePState (runLines (splitNl d))

-- ── Skip filter ─────────────────────────────────────────────────────────────

/-- The fixed pattern table of `_should_skip_file`; `true` marks a
`$`-anchored (suffix) pattern, `false` a bare substring pattern. -/
def skip_patterns : List (Str × Bool) :=
  [ (str "package-lock.json", true), (str "yarn.lock", true),
    (str "pnpm-lock.yaml", true), (str "go.sum", true),
    (str "cargo.lock", true), (str "composer.lock", true),
    (str "Gemfile.lock", true), (str "Pipfile.lock", true),
    (str "poetry.lock", true), (str ".min.js", true),
    (str ".min.css", true), (str ".map", true), (str ".svg", true),
    (str ".png", true), (str ".jpg", true), (str ".jpeg", true),
    (str ".gif", true), (str ".ico", true), (str ".pdf", true),
    (str "__snapshots__/", false), (str ".ipynb", true) ]

def lowerStr (s : Str) : Str := s.map Char.toLower

/-- The function `_should_skip_file`: `re.search(pattern, filename, re.IGNORECASE)`
over the fixed table. -/
def should_skip_file (f : Str) : Bool :=
  skip_patterns.any (fun pb =>
    if pb.2 then (lowerStr pb.1).isSuffixOf (lowerStr f)
    else containsStr (lowerStr pb.1) (lowerStr f))

-- ── Prompt renderer ─────────────────────────────────────────────────────────

/-- Python: `line.line_number_new or ""` treats both `None` and `0` as
falsy, so both yield the empty string. -/
def numStr : Option Nat → Str
  | none => []
  | some 0 => []
  | some n => natDigits n

/-- Python: `f"{line_no:>4} {prefix}{line.content}"` inside a `__new hunk__` block. -/
def renderNewLine (l : HunkLine) : Str :=
  padLeft4 (numStr l.line_number_new) ++ [' ', if l.pfx = '+' then '+' else ' '] ++ l.content

/-- Python: `f" {prefix}{line.content}"` inside an `__old hunk__` block. -/
def renderOldLine (l : HunkLine) : Str :=
  [' ', if l.pfx = '-' then '-' else ' '] ++ l.content

def sectionLine (h : DiffHunk) : Str :=
  if h.section_header.isEmpty then str "@@ ... @@"
  else str "@@ ... @@ " ++ h.section_header

def newHunkMarker : Str := str "__new hunk__"

def oldHunkMarker : Str := str "__old hunk__"

/-- The `file_parts` entries produced for one hunk by the inner loop of
`format_diff_for_prompt`. -/
def renderHunkParts (h : DiffHunk) : List Str :=
  [sectionLine h, newHunkMarker]
  ++ h.lines.filterMap (fun l => if isNewSide l then some (renderNewLine l) else none)
  ++ (if h.removed_lines.isEmpty then [] else
      oldHunkMarker :: h.lines.filterMap
        (fun l => if isOldSide l then some (renderOldLine l) else none))
  ++ [[]]

def fileHeaderLine (p : FilePatch) : Str :=
  str "\x0a## File: \x27" ++ p.filename ++ str "\x27"
  ++ (if p.is_new_file then str " (new file)"
      else if p.is_deleted_file then str " (deleted)"
      else match p.old_filename with
           | some old => str " (renamed from \x27" ++ old ++ str "\x27)"
           | none => [])

def joinNl (parts : List Str) : Str := List.intercalate ['\n'] parts

/-- Python: `"\n".join(file_parts)` for a non-binary, non-skipped file. -/
def fileSection (p : FilePatch) : Str :=
  joinNl ([fileHeaderLine p, []] ++ (p.hunks.map renderHunkParts).flatten)

def binarySection (p : FilePatch) : Str :=
  str "\x0a## File: \x27" ++ p.filename ++ str "\x27\x0a[Binary file - skipped]\x0a"

def skipSection (p : FilePatch) : Str :=
  str "\x0a## File: \x27" ++ p.filename
  ++ str "\x27\x0a[Auto-generated/Lock file - skipped to save tokens]\x0a"

def truncSection (p : FilePatch) : Str :=
  str "\x0a## File: \x27" ++ p.filename
  ++ str "\x27\x0a[Content truncated - file too large]\x0a"

/-- The main loop of `format_diff_for_prompt`, accumulating the emitted
sections (`parts`) while tracking the running character total. -/
def formatLoop (max_chars : Nat) : List FilePatch → Nat → List Str
  | [], _ => []
  | p :: rest, total =>
    if p.is_binary then
      binarySection p :: formatLoop max_chars rest (total + (binarySection p).length)
    else if should_skip_file p.filename then
      skipSection p :: formatLoop max_chars rest (total + (skipSection p).length)
    else
      let sec := fileSection p
      if total + sec.length > max_chars then [truncSection p]
      else sec :: formatLoop max_chars rest (total + sec.length)

/-- The function `format_diff_for_prompt`; the non-negative rational `chars_per_token`
is passed as an explicit numerator/denominator pair (the Python default
`3.5` is `7/2`, the spec's example `1` is `1/1`), so that
`max_chars = int(max_tokens * chars_per_token)` is the exact natural
division `max_tokens * cpt_num / cpt_den`. -/
def format_diff_for_prompt (patches : List FilePatch) (max_tokens : Nat)
    (cpt_num : Nat) (cpt_den : Nat) : Str :=
  let max_chars : Nat := max_tokens * cpt_num / cpt_den
  joinNl (formatLoop max_chars patches 0)

-- ── Summarizer ──────────────────────────────────────────────────────────────

structure FileSummaryEntry where
  filename : Str
  additions : Nat
  deletions : Nat
  is_new : Bool
  is_deleted : Bool
  is_binary : Bool
deriving DecidableEq

structure DiffSummary where
  total_files : Nat
  total_additions : Nat
  total_deletions : Nat
  total_changes : Nat
  files : List FileSummaryEntry
deriving DecidableEq

/-- The function `get_pr_diff_summary`. -/
def get_pr_diff_summary (patches : List FilePatch) : DiffSummary :=
  { total_files := patches.length,
    total_additions := (patches.map FilePatch.total_additions).sum,
    total_deletions := (patches.map FilePatch.total_deletions).sum,
    total_changes := (patches.map FilePatch.total_changes).sum,
    files := patches.map (fun p =>
      { filename := p.filename, additions := p.total_additions,
        deletions := p.total_deletions, is_new := p.is_new_file,
        is_deleted := p.is_deleted_file, is_binary := p.is_binary }) }

-- ── Chunk splitter ──────────────────────────────────────────────────────────

/-- Python: `sum(len(line.content) + 10 for hunk in patch.hunks for line in hunk.lines)`. -/
def estimatedChars (p : FilePatch) : Nat :=
  (p.hunks.map (fun h => (h.lines.map (fun l => l.content.length + 10)).sum)).sum

/-- Python: `int(estimated_chars / 3.5)` on a non-negative integer, as exact
arithmetic: `estimated_chars * 2 / 7`. -/
def estimatedTokens (p : FilePatch) : Nat := estimatedChars p * 2 / 7

/-- The loop of `split_diff_for_chunks`.  Note the source never adds
`estimated_tokens` to `current_tokens` after appending a patch, which is
mirrored here exactly: `cur_tokens` is threaded unchanged. -/
def splitChunksLoop (max_tokens_per_chunk : Nat) :
    List FilePatch → List FilePatch → Nat → List (List FilePatch)
  | [], cur, _ => if cur.isEmpty then [] else [cur]
  | p :: rest, cur, cur_tokens =>
    if cur_tokens + estimatedTokens p > max_tokens_per_chunk && !cur.isEmpty then
      cur :: splitChunksLoop max_tokens_per_chunk rest [p] 0
    else
      splitChunksLoop max_tokens_per_chunk rest (cur ++ [p]) cur_tokens

/-- The function `split_diff_for_chunks`. -/
def split_diff_for_chunks (patches : List FilePatch)
    (max_tokens_per_chunk : Nat) : List (List FilePatch) :=
  splitChunksLoop max_tokens_per_chunk patches [] 0

-- ── Derived definitions used by the verification ────────────────────────────

/-- A file that is neither binary nor skip-filtered, i.e. one whose hunk
content is actually rendered. -/
def renderable (p : FilePatch) : Bool := !p.is_binary && !should_skip_file p.filename

/-- The section `format_diff_for_prompt` emits for a patch when the
budget allows it. -/
def emittedSection (p : FilePatch) : Str :=
  if p.is_binary then binarySection p
  else if should_skip_file p.filename then skipSection p
  else fileSection p

/-- The running character total after the first `k` patches have been
emitted, starting from `total`. -/
def prefTotal (total : Nat) (ps : List FilePatch) (k : Nat) : Nat :=
  total + ((ps.take k).map (fun p => (emittedSection p).length)).sum

/-- Predicate: `f` assigns consecutive numbers starting at `st` along the list. -/
def Numbered (f : HunkLine → Option Nat) : Nat → List HunkLine → Prop
  | _, [] => True
  | st, l :: ls => f l = some st ∧ Numbered f (st + 1) ls

/-- Hunk-local numbering invariant: old-side lines are numbered
consecutively from `old_start`, new-side lines from `new_start`. -/
def HInv (h : DiffHunk) : Prop :=
  Numbered (fun l => l.line_number_old) h.old_start h.old_lines ∧
  Numbered (fun l => l.line_number_new) h.new_start h.new_lines

/-- Parser-state invariant: every completed hunk satisfies `HInv`, and for
an open hunk the running counters sit exactly past its last numbered lines. -/
def SInv (s : PState) : Prop :=
  (∀ p ∈ s.patches, ∀ h ∈ p.hunks, HInv h) ∧
  ∀ cp, s.cur = some cp →
    (∀ h ∈ cp.fp.hunks, HInv h) ∧
    ∀ h, cp.oh = some h → HInv h ∧
      s.old_line_no = h.old_start + h.old_lines.length ∧
      s.new_line_no = h.new_start + h.new_lines.length

/-- No hunk has been opened anywhere in the state (all patches, the
current patch included, have empty `hunks` and no open hunk). -/
def NoHunksState (s : PState) : Prop :=
  (∀ p ∈ s.patches, p.hunks = []) ∧
  ∀ cp, s.cur = some cp → cp.fp.hunks = [] ∧ cp.oh = none

/-- Does the parser state have an open hunk? -/
def openHunk (s : PState) : Bool :=
  match s.cur with
  | some ⟨_, some _⟩ => true
  | _ => false

def modLast {α : Type} (f : α → α) : List α → List α
  | [] => []
  | [a] => [f a]
  | a :: b :: rest => a :: modLast f (b :: rest)

/-- Append to a hunk one context line with empty content, numbered with
both counters just past the hunk's existing lines. -/
def addCtxLine (h : DiffHunk) : DiffHunk :=
  { h with lines := h.lines ++
      [HunkLine.mk [] (some (h.new_start + h.new_lines.length))
        (some (h.old_start + h.old_lines.length)) ' '] }

def addCtxPatch (p : FilePatch) : FilePatch :=
  { p with hunks := modLast addCtxLine p.hunks }

/-- Apply `addCtxLine` to the last hunk of the last patch. -/
def addTrailingCtx (ps : List FilePatch) : List FilePatch :=
  modLast addCtxPatch ps

-- ── Concrete inputs used by individual claims ───────────────────────────────

/-- One 40-character added line (50 estimated characters with overhead). -/
def chunkLine : HunkLine := { content := List.replicate 40 'a', pfx := '+' }

/-- 210 such lines: 210 * 50 = 10500 estimated characters, i.e. an
estimated 3000 tokens. -/
def chunkHunk : DiffHunk := { header := [], lines := List.replicate 210 chunkLine }

def chunkPatch : FilePatch := { filename := str "big.py", hunks := [chunkHunk] }

def c2BinPatch : FilePatch := { filename := str "bin.dat", is_binary := true }

def c2BigPatch : FilePatch :=
  { filename := str "app.py",
    hunks := [{ header := [], lines := [{ content := str "some content line", pfx := '+' }] }] }

def c3CexDiff : Str := str "diff --git a/f b/f\n@@ -1 +1 @@\n x\nBinary files a/f and b/f differ"

def c3BinDiff : Str := str "diff --git a/f b/f\nBinary files a/f and b/f differ"

def c4Diff : Str := str "garbage before\ndiff --git a/f b/f\n@@ -1,5 +1,5 @@\n+a\n+b"

def c5Diff : Str := str "diff --git a/f b/f\n@@ -10,5 +10,7 @@\n ctx\n-del\n+add"

def c7Diff : Str := str "diff --git a/f b/f\n@@ -0,0 +0,0 @@\n+x"

def c10Diff : Str := str "diff --git a/f b/f\n@@ -1 +1 @@\n+x"

-- ── Helper lemmas ───────────────────────────────────────────────────────────

theorem containsStr_prepend (pat g f : Str) (h : containsStr pat f = true) :
    containsStr pat (g ++ f) = true := by
  induction g with
  | nil => simpa using h
  | cons c cs ih => simp [containsStr, ih]

theorem isSuffixOf_prepend (pat g f : Str) (h : pat.isSuffixOf f = true) :
    pat.isSuffixOf (g ++ f) = true := by
  rw [List.isSuffixOf_iff_suffix] at h ⊢
  exact h.trans (List.suffix_append g f)

theorem lowerStr_append (a b : Str) : lowerStr (a ++ b) = lowerStr a ++ lowerStr b := by
  simp [lowerStr]

-- ── C1 ──────────────────────────────────────────────────────────────────────

/-- C1: on three patches whose estimated size is exactly 3000 tokens each
and `max_tokens_per_chunk = 5000`, `split_diff_for_chunks` returns a
single chunk holding all three patches (not the two chunks the greedy
accumulation described in the documentation would produce): the loop
never adds `estimated_tokens` to `current_tokens`, so the close condition
compares each patch size against the limit in isolation. -/
theorem c1_chunk_splitter_evaluation :
    estimatedTokens chunkPatch = 3000 ∧
    (split_diff_for_chunks [chunkPatch, chunkPatch, chunkPatch] 5000).map List.length
      = [3] := by
  decide

-- ── C9 ──────────────────────────────────────────────────────────────────────

/-- C9: an empty or whitespace-only input yields an empty sequence of
patches, not an error; in particular on `""` and `"   \n  "`. -/
theorem c9_blank_input :
    (∀ d : Str, isBlank d = true → parse_diff d = []) ∧
    parse_diff (str "") = [] ∧ parse_diff (str "   \n  ") = [] := by
  refine ⟨fun d h => ?_, by decide, by decide⟩
  simp [parse_diff, h]

theorem c9_blank_input_witness :
    isBlank (str " \t ") = true ∧ parse_diff (str " \t ") = [] :=
  ⟨by decide, c9_blank_input.1 (str " \t ") (by decide)⟩

-- ── C4 ──────────────────────────────────────────────────────────────────────

/-- C4: the parser is a total function on every input string (it is
defined as one here, mirroring the raise-free source): any line arriving
before the first file header is dropped silently, and a hunk whose
declared `new_count` (5) does not match its actual number of new-side
lines (2) still parses successfully. -/
theorem c4_parser_total_and_tolerant :
    (∀ g ls, matchFileHeader g = none → runLines (g :: ls) = runLines ls) ∧
    (parse_diff c4Diff).map (fun p => p.hunks.map (fun h => (h.new_count, h.new_lines.length)))
      = [[(5, 2)]] := by
  constructor
  · intro g ls hg
    have h0 : stepLine initPState g = initPState := by
      simp [stepLine, hg, initPState]
    simp [runLines, List.foldl_cons, h0]
  · decide

theorem c4_parser_total_and_tolerant_witness :
    matchFileHeader (str "oops, not a header") = none ∧
    runLines [str "oops, not a header"] = runLines [] :=
  ⟨by decide, c4_parser_total_and_tolerant.1 (str "oops, not a header") [] (by decide)⟩

-- ── C2: counterexample ──────────────────────────────────────────────────────

/-- C2 as stated is false: with a 10-character budget
(`max_tokens = 10`, `chars_per_token = 1`), a binary patch's placeholder
section (34 characters, far over budget) is appended unconditionally and
no `[Content truncated - file too large]` placeholder is ever emitted —
binary and skip-filtered sections bypass the budget check. -/
theorem c2_counterexample :
    format_diff_for_prompt [c2BinPatch] 10 1 1 = binarySection c2BinPatch ∧
    10 < (binarySection c2BinPatch).length ∧
    containsStr (str "[Content truncated - file too large]")
      (format_diff_for_prompt [c2BinPatch] 10 1 1) = false := by
  decide

-- ── C3: counterexample ──────────────────────────────────────────────────────

/-- C3 as stated is false: a crafted diff that opens a hunk before the
`Binary files` marker line parses to a patch with `is_binary = true` and
a non-empty `hunks` sequence. -/
theorem c3_counterexample :
    (parse_diff c3CexDiff).map (fun p => (p.is_binary, p.hunks.length)) = [(true, 1)] := by
  decide

-- ── C7: counterexample ──────────────────────────────────────────────────────

/-- C7 as stated is false for a new-file line number of 0: parsing
`@@ -0,0 +0,0 @@` gives an addition numbered 0, and the rendered
`__new hunk__` line is `     +x` — a blank 4-character field (Python's
falsy coercion `line_number_new or ""`), not the right-aligned digit 0. -/
theorem c7_counterexample :
    ((parse_diff c7Diff).map fun p => p.hunks.map fun h =>
        h.lines.map fun l => (l.line_number_new, l.pfx, l.content))
      = [[[(some 0, '+', ['x'])]]] ∧
    format_diff_for_prompt (parse_diff c7Diff) 8000 7 2
      = str "\n## File: \x27f\x27\n\n@@ ... @@\n__new hunk__\n     +x\n" ∧
    containsStr (str "   0")
      (format_diff_for_prompt (parse_diff c7Diff) 8000 7 2) = false := by
  decide

-- ── C8 ──────────────────────────────────────────────────────────────────────

/-- C8: the skip filter is a pure, case-insensitive match against the
fixed pattern table — suffix matches (the `$`-anchored patterns) and
substring matches survive prepending any path, and the four named
examples behave as claimed (plus an upper-case variant showing
case-insensitivity). -/
theorem c8_skip_filter :
    should_skip_file (str "pnpm-lock.yaml") = true ∧
    should_skip_file (str "bundle.min.js") = true ∧
    should_skip_file (str "diagram.svg") = true ∧
    should_skip_file (str "src/app.py") = false ∧
    should_skip_file (str "PNPM-LOCK.YAML") = true ∧
    ∀ pre f, should_skip_file f = true → should_skip_file (pre ++ f) = true := by
  refine ⟨by decide, by decide, by decide, by decide, by decide, fun pre f h => ?_⟩
  unfold should_skip_file at h ⊢
  rw [List.any_eq_true] at h ⊢
  obtain ⟨pb, hmem, hmatch⟩ := h
  refine ⟨pb, hmem, ?_⟩
  by_cases hb : pb.2 = true
  · simp only [hb, if_true] at hmatch ⊢
    rw [lowerStr_append]
    exact isSuffixOf_prepend _ _ _ hmatch
  · simp only [Bool.not_eq_true] at hb
    simp only [hb, Bool.false_eq_true, if_false] at hmatch ⊢
    rw [lowerStr_append]
    exact containsStr_prepend _ _ _ hmatch

theorem c8_skip_filter_witness :
    should_skip_file (str "x.ipynb") = true ∧
    should_skip_file (str "notebooks/x.ipynb") = true :=
  ⟨by decide, c8_skip_filter.2.2.2.2.2 (str "notebooks/") (str "x.ipynb") (by decide)⟩

-- ── Numbering invariant machinery (C5, C10) ─────────────────────────────────

theorem Numbered_append_one {f : HunkLine → Option Nat} {st : Nat}
    {ls : List HunkLine} {x : HunkLine}
    (h : Numbered f st ls) (hx : f x = some (st + ls.length)) :
    Numbered f st (ls ++ [x]) := by
  induction ls generalizing st with
  | nil => exact ⟨by simpa using hx, trivial⟩
  | cons l ls ih =>
    refine ⟨h.1, ih h.2 ?_⟩
    rw [hx]
    congr 1
    simp only [List.length_cons]
    omega

theorem Numbered_get {f : HunkLine → Option Nat} {st : Nat} {ls : List HunkLine}
    (h : Numbered f st ls) : ∀ i (hi : i < ls.length), f (ls.get ⟨i, hi⟩) = some (st + i) := by
  induction ls generalizing st with
  | nil => intro i hi; simp at hi
  | cons l ls ih =>
    intro i hi
    cases i with
    | zero => simpa using h.1
    | succ j =>
      have hj : j < ls.length := by simp only [List.length_cons] at hi; omega
      have h2 := ih h.2 j hj
      simp only [List.get_cons_succ]
      rw [h2]
      congr 1
      omega

theorem filter_append_one_pos {p : HunkLine → Bool} {ls : List HunkLine} {x : HunkLine}
    (hx : p x = true) : (ls ++ [x]).filter p = ls.filter p ++ [x] := by
  simp [List.filter_append, hx]

theorem filter_append_one_neg {p : HunkLine → Bool} {ls : List HunkLine} {x : HunkLine}
    (hx : p x = false) : (ls ++ [x]).filter p = ls.filter p := by
  simp [List.filter_append, hx]

theorem HInv_fresh (line : Str) (os oc ns nc : Nat) (sec : Str) :
    HInv { header := line, old_start := os, old_count := oc, new_start := ns,
           new_count := nc, lines := [], section_header := sec } :=
  ⟨trivial, trivial⟩

/-- The parser-state invariant is preserved by every line. -/
theorem stepLine_SInv (s : PState) (line : Str) (hs : SInv s) : SInv (stepLine s line) := by
  obtain ⟨hp, hc⟩ := hs
  unfold stepLine
  split
  · -- file header line: close the current patch, open a fresh one
    refine ⟨?_, ?_⟩
    · intro p hmem h hh
      rcases List.mem_append.mp hmem with hm | hm
      · exact hp p hm h hh
      · cases hcur : s.cur with
        | none => rw [hcur] at hm; simp at hm
        | some cp =>
          rw [hcur] at hm
          simp at hm
          subst hm
          obtain ⟨hfp, hoh⟩ := hc cp hcur
          unfold closePatch at hh
          cases hohc : cp.oh with
          | none => rw [hohc] at hh; exact hfp h hh
          | some oh0 =>
            rw [hohc] at hh
            simp only [List.mem_append, List.mem_singleton] at hh
            rcases hh with hh | hh
            · exact hfp h hh
            · subst hh; exact (hoh h hohc).1
    · intro cp' hcp'
      simp only [Option.some.injEq] at hcp'
      subst hcp'
      refine ⟨?_, ?_⟩
      · intro h hh; simp at hh
      · intro h hsome; simp at hsome
  · -- not a file header
    split
    · -- no current patch: state unchanged
      exact ⟨hp, hc⟩
    · rename_i cp hcur
      split_ifs with h1 h2 h3 h4 h5
      · -- new file mode
        refine ⟨hp, ?_⟩
        intro cp' hcp'
        simp only [Option.some.injEq] at hcp'
        subst hcp'
        obtain ⟨hfp, hoh⟩ := hc cp hcur
        exact ⟨hfp, hoh⟩
      · -- deleted file mode
        refine ⟨hp, ?_⟩
        intro cp' hcp'
        simp only [Option.some.injEq] at hcp'
        subst hcp'
        obtain ⟨hfp, hoh⟩ := hc cp hcur
        exact ⟨hfp, hoh⟩
      · -- Binary files marker
        refine ⟨hp, ?_⟩
        intro cp' hcp'
        simp only [Option.some.injEq] at hcp'
        subst hcp'
        obtain ⟨hfp, hoh⟩ := hc cp hcur
        exact ⟨hfp, hoh⟩
      · -- --- / +++ header
        exact ⟨hp, hc⟩
      · -- index line
        exact ⟨hp, hc⟩
      · split
        · -- hunk header: close the open hunk, open a fresh one, reset counters
          rename_i os oc ns nc sec hhh
          refine ⟨hp, ?_⟩
          intro cp' hcp'
          simp only [Option.some.injEq] at hcp'
          subst hcp'
          obtain ⟨hfp, hoh⟩ := hc cp hcur
          refine ⟨?_, ?_⟩
          · intro h hh
            simp only [List.mem_append] at hh
            rcases hh with hh | hh
            · exact hfp h hh
            · cases hohc : cp.oh with
              | none => rw [hohc] at hh; simp at hh
              | some oh0 =>
                rw [hohc] at hh
                simp only [Option.toList_some, List.mem_singleton] at hh
                subst hh
                exact (hoh h hohc).1
          · intro h hsome
            simp only [Option.some.injEq] at hsome
            subst hsome
            exact ⟨HInv_fresh _ _ _ _ _ _, by simp [DiffHunk.old_lines], by simp [DiffHunk.new_lines]⟩
        · -- not a hunk header: content line (or dropped)
          rename_i hhh
          split
          · -- no open hunk: state unchanged
            exact ⟨hp, hc⟩
          · rename_i h hohc
            obtain ⟨hfp, hoh⟩ := hc cp hcur
            obtain ⟨hinv, holdno, hnewno⟩ := hoh h hohc
            simp only [DiffHunk.old_lines, DiffHunk.new_lines] at holdno hnewno
            split
            · -- '+' line
              rename_i rest heq
              refine ⟨hp, ?_⟩
              intro cp' hcp'
              simp only [Option.some.injEq] at hcp'
              subst hcp'
              refine ⟨hfp, ?_⟩
              intro h'' hsome
              simp only [Option.some.injEq] at hsome
              subst hsome
              have hnewside : isNewSide (HunkLine.mk rest (some s.new_line_no) none '+') = true := rfl
              have holdside : isOldSide (HunkLine.mk rest (some s.new_line_no) none '+') = false := rfl
              refine ⟨⟨?_, ?_⟩, ?_, ?_⟩
              · show Numbered _ _ (DiffHunk.old_lines _)
                unfold DiffHunk.old_lines
                simp only [filter_append_one_neg holdside]
                exact hinv.1
              · show Numbered _ _ (DiffHunk.new_lines _)
                unfold DiffHunk.new_lines
                simp only [filter_append_one_pos hnewside]
                exact Numbered_append_one hinv.2 (by simp only [hnewno])
              · show s.old_line_no = _
                unfold DiffHunk.old_lines
                simp only [filter_append_one_neg holdside]
                exact holdno
              · show s.new_line_no + 1 = _
                unfold DiffHunk.new_lines
                simp only [filter_append_one_pos hnewside, List.length_append]
                simp only [List.length_singleton]
                omega
            · -- '-' line
              rename_i rest heq
              refine ⟨hp, ?_⟩
              intro cp' hcp'
              simp only [Option.some.injEq] at hcp'
              subst hcp'
              refine ⟨hfp, ?_⟩
              intro h'' hsome
              simp only [Option.some.injEq] at hsome
              subst hsome
              have hnewside : isNewSide (HunkLine.mk rest none (some s.old_line_no) '-') = false := rfl
              have holdside : isOldSide (HunkLine.mk rest none (some s.old_line_no) '-') = true := rfl
              refine ⟨⟨?_, ?_⟩, ?_, ?_⟩
              · show Numbered _ _ (DiffHunk.old_lines _)
                unfold DiffHunk.old_lines
                simp only [filter_append_one_pos holdside]
                exact Numbered_append_one hinv.1 (by simp only [holdno])
              · show Numbered _ _ (DiffHunk.new_lines _)
                unfold DiffHunk.new_lines
                simp only [filter_append_one_neg hnewside]
                exact hinv.2
              · show s.old_line_no + 1 = _
                unfold DiffHunk.old_lines
                simp only [filter_append_one_pos holdside, List.length_append]
                simp only [List.length_singleton]
                omega
              · show s.new_line_no = _
                unfold DiffHunk.new_lines
                simp only [filter_append_one_neg hnewside]
                exact hnewno
            · -- ' ' context line
              rename_i rest heq
              refine ⟨hp, ?_⟩
              intro cp' hcp'
              simp only [Option.some.injEq] at hcp'
              subst hcp'
              refine ⟨hfp, ?_⟩
              intro h'' hsome
              simp only [Option.some.injEq] at hsome
              subst hsome
              have hnewside : isNewSide (HunkLine.mk rest (some s.new_line_no) (some s.old_line_no) ' ') = true := rfl
              have holdside : isOldSide (HunkLine.mk rest (some s.new_line_no) (some s.old_line_no) ' ') = true := rfl
              refine ⟨⟨?_, ?_⟩, ?_, ?_⟩
              · show Numbered _ _ (DiffHunk.old_lines _)
                unfold DiffHunk.old_lines
                simp only [filter_append_one_pos holdside]
                exact Numbered_append_one hinv.1 (by simp only [holdno])
              · show Numbered _ _ (DiffHunk.new_lines _)
                unfold DiffHunk.new_lines
                simp only [filter_append_one_pos hnewside]
                exact Numbered_append_one hinv.2 (by simp only [hnewno])
              · show s.old_line_no + 1 = _
                unfold DiffHunk.old_lines
                simp only [filter_append_one_pos holdside, List.length_append]
                simp only [List.length_singleton]
                omega
              · show s.new_line_no + 1 = _
                unfold DiffHunk.new_lines
                simp only [filter_append_one_pos hnewside, List.length_append]
                simp only [List.length_singleton]
                omega
            · -- empty line: context line with empty content
              refine ⟨hp, ?_⟩
              intro cp' hcp'
              simp only [Option.some.injEq] at hcp'
              subst hcp'
              refine ⟨hfp, ?_⟩
              intro h'' hsome
              simp only [Option.some.injEq] at hsome
              subst hsome
              have hnewside : isNewSide (HunkLine.mk [] (some s.new_line_no) (some s.old_line_no) ' ') = true := rfl
              have holdside : isOldSide (HunkLine.mk [] (some s.new_line_no) (some s.old_line_no) ' ') = true := rfl
              refine ⟨⟨?_, ?_⟩, ?_, ?_⟩
              · show Numbered _ _ (DiffHunk.old_lines _)
                unfold DiffHunk.old_lines
                simp only [filter_append_one_pos holdside]
                exact Numbered_append_one hinv.1 (by simp only [holdno])
              · show Numbered _ _ (DiffHunk.new_lines _)
                unfold DiffHunk.new_lines
                simp only [filter_append_one_pos hnewside]
                exact Numbered_append_one hinv.2 (by simp only [hnewno])
              · show s.old_line_no + 1 = _
                unfold DiffHunk.old_lines
                simp only [filter_append_one_pos holdside, List.length_append]
                simp only [List.length_singleton]
                omega
              · show s.new_line_no + 1 = _
                unfold DiffHunk.new_lines
                simp only [filter_append_one_pos hnewside, List.length_append]
                simp only [List.length_singleton]
                omega
            · -- any other line is dropped
              exact ⟨hp, hc⟩

theorem SInv_init : SInv initPState := by
  constructor
  · intro p hmem; simp [initPState] at hmem
  · intro cp hcp; simp [initPState] at hcp

theorem foldl_SInv (ls : List Str) : ∀ s : PState, SInv s → SInv (ls.foldl stepLine s) := by
  induction ls with
  | nil => intro s hs; exact hs
  | cons l ls ih => intro s hs; exact ih _ (stepLine_SInv s l hs)

theorem runLines_SInv (ls : List Str) : SInv (runLines ls) :=
  foldl_SInv ls initPState SInv_init

/-- Every hunk of every patch produced by the parser satisfies the
hunk-numbering invariant. -/
theorem parse_diff_HInv (d : Str) (p : FilePatch) (h : DiffHunk)
    (hp : p ∈ parse_diff d) (hh : h ∈ p.hunks) : HInv h := by
  unfold parse_diff at hp
  by_cases hb : isBlank d
  · simp [hb] at hp
  · simp only [hb, Bool.false_eq_true, if_false] at hp
    have hs := runLines_SInv (splitNl d)
    unfold finalizePState at hp
    rcases List.mem_append.mp hp with hm | hm
    · exact hs.1 p hm h hh
    · cases hcur : (runLines (splitNl d)).cur with
      | none => rw [hcur] at hm; simp at hm
      | some cp =>
        rw [hcur] at hm
        simp at hm
        subst hm
        obtain ⟨hfp, hoh⟩ := hs.2 cp hcur
        unfold closePatch at hh
        cases hohc : cp.oh with
        | none => rw [hohc] at hh; exact hfp h hh
        | some oh0 =>
          rw [hohc] at hh
          simp only [List.mem_append, List.mem_singleton] at hh
          rcases hh with hh | hh
          · exact hfp h hh
          · subst hh; exact (hoh h hohc).1

-- ── C5 ──────────────────────────────────────────────────────────────────────

/-- C5: in every parsed hunk, the i-th old-side line (Context or
Deletion) carries `line_number_old = old_start + i` and the i-th
new-side line (Context or Addition) carries
`line_number_new = new_start + i` — so the first applicable lines are
numbered `old_start` / `new_start` and each counter advances by exactly
1 per applicable line.  Concretely, `@@ -10,5 +10,7 @@` parses with the
declared starts and counts, numbers its lines 10/10, 11 (old), 11 (new),
and a count-less header `@@ -3 +7 @@` defaults both counts to 1. -/
theorem c5_line_numbering :
    (∀ d p h, p ∈ parse_diff d → h ∈ p.hunks →
      (∀ i (hi : i < h.old_lines.length),
        (h.old_lines.get ⟨i, hi⟩).line_number_old = some (h.old_start + i)) ∧
      (∀ i (hi : i < h.new_lines.length),
        (h.new_lines.get ⟨i, hi⟩).line_number_new = some (h.new_start + i))) ∧
    (parse_diff c5Diff).map (fun p => p.hunks.map fun h =>
        [h.old_start, h.old_count, h.new_start, h.new_count])
      = [[[10, 5, 10, 7]]] ∧
    (parse_diff c5Diff).map (fun p => p.hunks.map fun h =>
        h.lines.map fun l => (l.line_number_old, l.line_number_new))
      = [[[(some 10, some 10), (some 11, none), (none, some 11)]]] ∧
    matchHunkHeader (str "@@ -3 +7 @@") = some (3, 1, 7, 1, []) := by
  refine ⟨fun d p h hp hh => ?_, by decide, by decide, by decide⟩
  have hinv := parse_diff_HInv d p h hp hh
  exact ⟨Numbered_get hinv.1, Numbered_get hinv.2⟩

theorem c5_line_numbering_witness :
    ((parse_diff c5Diff).head!.hunks.head!.old_lines.get ⟨0, by decide⟩).line_number_old
      = some ((parse_diff c5Diff).head!.hunks.head!.old_start + 0) :=
  (c5_line_numbering.1 c5Diff (parse_diff c5Diff).head!
    (parse_diff c5Diff).head!.hunks.head! (by decide) (by decide)).1 0 (by decide)

-- ── Trailing-newline machinery (C10) ────────────────────────────────────────

theorem splitNl_ne_nil (d : Str) : splitNl d ≠ [] := by
  cases d with
  | nil => simp [splitNl]
  | cons c cs =>
    simp only [splitNl]
    cases hsc : splitNl cs with
    | nil => simp
    | cons l ls => by_cases hc : c = '\n' <;> simp [hc]

theorem splitNl_append_newline (d : Str) : splitNl (d ++ ['\n']) = splitNl d ++ [[]] := by
  induction d with
  | nil => rfl
  | cons c cs ih =>
    show splitNl (c :: (cs ++ ['\n'])) = _
    simp only [splitNl]
    rw [ih]
    cases hsc : splitNl cs with
    | nil => exact absurd hsc (splitNl_ne_nil cs)
    | cons l ls =>
      simp only [List.cons_append]
      by_cases hcnl : c = '\n'
      · simp [hcnl]
      · simp [hcnl]

theorem isBlank_append_newline (d : Str) : isBlank (d ++ ['\n']) = isBlank d := by
  simp [isBlank, List.all_append, isPySpace]

theorem runLines_concat (ls : List Str) (l : Str) :
    runLines (ls ++ [l]) = stepLine (runLines ls) l := by
  unfold runLines
  rw [List.foldl_append]
  rfl

/-- Feeding the empty line produced by a trailing `"\n"` into a state
with an open hunk appends one context line with empty content, numbered
with the current counters, and advances both counters. -/
theorem stepLine_empty_open (s : PState) (fp : FilePatch) (hk : DiffHunk)
    (hcur : s.cur = some ⟨fp, some hk⟩) :
    stepLine s [] = ⟨s.patches, some ⟨fp, some { hk with lines := hk.lines ++
        [HunkLine.mk [] (some s.new_line_no) (some s.old_line_no) ' '] }⟩,
      s.new_line_no + 1, s.old_line_no + 1⟩ := by
  obtain ⟨ps, cur, n, o⟩ := s
  simp only at hcur
  subst hcur
  rfl

theorem modLast_append_one {α : Type} (f : α → α) (xs : List α) (x : α) :
    modLast f (xs ++ [x]) = xs ++ [f x] := by
  induction xs with
  | nil => rfl
  | cons a rest ih =>
    cases rest with
    | nil => rfl
    | cons b rest2 =>
      show a :: modLast f ((b :: rest2) ++ [x]) = a :: ((b :: rest2) ++ [f x])
      rw [ih]

-- ── C10 ─────────────────────────────────────────────────────────────────────

/-- C10: for a non-blank diff text that ends inside an open hunk,
appending a single trailing newline yields the same parse except that
the last hunk of the last patch gains one additional Context line with
empty content, numbered with both line counters (which sit one past the
hunk's existing old/new-side lines) — the trailing empty string produced
by `split("\n")` is classified as a context line. -/
theorem c10_trailing_newline (d : Str) (hblank : isBlank d = false)
    (hopen : openHunk (runLines (splitNl d)) = true) :
    parse_diff (d ++ ['\n']) = addTrailingCtx (parse_diff d) := by
  have hSI := runLines_SInv (splitNl d)
  cases hcur : (runLines (splitNl d)).cur with
  | none => rw [openHunk, hcur] at hopen; simp at hopen
  | some cp =>
    obtain ⟨fp, oh⟩ := cp
    cases hoh : oh with
    | none => rw [openHunk, hcur, hoh] at hopen; simp at hopen
    | some hk =>
      subst hoh
      obtain ⟨hfp, hohinv⟩ := hSI.2 ⟨fp, some hk⟩ hcur
      obtain ⟨hinv, holdno, hnewno⟩ := hohinv hk rfl
      have hblank2 : isBlank (d ++ ['\n']) = false := by
        rw [isBlank_append_newline]; exact hblank
      have hL : parse_diff (d ++ ['\n']) = finalizePState (stepLine (runLines (splitNl d)) []) := by
        unfold parse_diff
        rw [hblank2, splitNl_append_newline, runLines_concat]
        simp
      have hR : parse_diff d = finalizePState (runLines (splitNl d)) := by
        unfold parse_diff
        rw [hblank]
        simp
      have hfin : finalizePState (runLines (splitNl d)) =
          (runLines (splitNl d)).patches ++ [{ fp with hunks := fp.hunks ++ [hk] }] := by
        unfold finalizePState
        rw [hcur]
        rfl
      rw [hL, hR, hfin, stepLine_empty_open _ fp hk hcur]
      dsimp only [finalizePState, closePatch]
      unfold addTrailingCtx
      rw [modLast_append_one]
      unfold addCtxPatch
      dsimp only
      rw [modLast_append_one]
      unfold addCtxLine
      rw [holdno, hnewno]
      rfl

theorem c10_trailing_newline_witness :
    isBlank c10Diff = false ∧ openHunk (runLines (splitNl c10Diff)) = true ∧
    parse_diff (c10Diff ++ ['\n']) = addTrailingCtx (parse_diff c10Diff) :=
  ⟨by decide, by decide, c10_trailing_newline c10Diff (by decide) (by decide)⟩

-- ── Rendered-line shape lemmas (C6, C7) ─────────────────────────────────────

theorem filterMap_guard {α β : Type} (p : α → Bool) (f : α → β) (xs : List α) :
    xs.filterMap (fun a => if p a then some (f a) else none) = (xs.filter p).map f := by
  induction xs with
  | nil => rfl
  | cons a rest ih =>
    by_cases hpa : p a = true
    · simp [List.filterMap_cons, List.filter_cons, hpa, ih]
    · simp only [Bool.not_eq_true] at hpa
      simp [List.filterMap_cons, List.filter_cons, hpa, ih]

theorem digitChar_isDigit : ∀ d : Nat, (digitChar d).isDigit = true
  | 0 => rfl
  | 1 => rfl
  | 2 => rfl
  | 3 => rfl
  | 4 => rfl
  | 5 => rfl
  | 6 => rfl
  | 7 => rfl
  | 8 => rfl
  | _ + 9 => rfl

theorem natDigitsCore_digits : ∀ (fuel n : Nat) (acc : Str),
    (∀ c ∈ acc, c.isDigit = true) → ∀ c ∈ natDigitsCore fuel n acc, c.isDigit = true := by
  intro fuel
  induction fuel with
  | zero => intro n acc hacc c hc; exact hacc c hc
  | succ fuel ih =>
    intro n acc hacc c hc
    simp only [natDigitsCore] at hc
    by_cases hn : n < 10
    · rw [if_pos hn] at hc
      rcases List.mem_cons.mp hc with hc | hc
      · subst hc; exact digitChar_isDigit n
      · exact hacc c hc
    · rw [if_neg hn] at hc
      refine ih (n / 10) _ ?_ c hc
      intro c' hc'
      rcases List.mem_cons.mp hc' with h | h
      · subst h; exact digitChar_isDigit (n % 10)
      · exact hacc c' h

theorem natDigits_digits (n : Nat) : ∀ c ∈ natDigits n, c.isDigit = true :=
  natDigitsCore_digits (n + 1) n [] (by intro c hc; simp at hc)

/-- A rendered `__new hunk__` line starts with a space or a digit. -/
theorem renderNewLine_head (l : HunkLine) :
    ∃ c t, renderNewLine l = c :: t ∧ (c = ' ' ∨ c.isDigit = true) := by
  unfold renderNewLine padLeft4
  cases hs : numStr l.line_number_new with
  | nil => exact ⟨' ', _, rfl, Or.inl rfl⟩
  | cons c0 t0 =>
    have hc0 : c0.isDigit = true := by
      have hmem : c0 ∈ numStr l.line_number_new := by
        rw [hs]; exact List.mem_cons_self _ _
      unfold numStr at hmem
      cases hln : l.line_number_new with
      | none => rw [hln] at hmem; simp at hmem
      | some n =>
        rw [hln] at hmem
        cases n with
        | zero => simp at hmem
        | succ m => exact natDigits_digits (m + 1) c0 hmem
    rcases Nat.lt_or_ge (c0 :: t0).length 4 with hlt | hge
    · have h4 : 4 - (c0 :: t0).length = (4 - (c0 :: t0).length - 1) + 1 := by omega
      rw [h4]
      exact ⟨' ', _, rfl, Or.inl rfl⟩
    · have h0 : 4 - (c0 :: t0).length = 0 := by omega
      rw [h0]
      exact ⟨c0, _, rfl, Or.inr hc0⟩

theorem renderNewLine_ne_underscore (l : HunkLine) (t : Str) :
    renderNewLine l ≠ '_' :: t := by
  obtain ⟨c, t', heq, hc⟩ := renderNewLine_head l
  rw [heq]
  intro hco
  injection hco with h1 _
  subst h1
  rcases hc with hc | hc
  · exact absurd hc (by decide)
  · exact absurd hc (by decide)

theorem renderOldLine_ne_underscore (l : HunkLine) (t : Str) :
    renderOldLine l ≠ '_' :: t := by
  unfold renderOldLine
  intro hco
  injection hco with h1 _
  exact absurd h1 (by decide)

theorem sectionLine_ne_underscore (h : DiffHunk) (t : Str) :
    sectionLine h ≠ '_' :: t := by
  unfold sectionLine
  by_cases hse : h.section_header.isEmpty
  · rw [if_pos hse]
    show ('@' :: str "@ ... @@") ≠ '_' :: t
    intro hco
    injection hco with h1 _
    exact absurd h1 (by decide)
  · rw [if_neg hse]
    show ('@' :: (str "@ ... @@ " ++ h.section_header)) ≠ '_' :: t
    intro hco
    injection hco with h1 _
    exact absurd h1 (by decide)

theorem sectionLine_ne_newMarker (h : DiffHunk) : sectionLine h ≠ newHunkMarker :=
  sectionLine_ne_underscore h (str "_new hunk__")

theorem sectionLine_ne_oldMarker (h : DiffHunk) : sectionLine h ≠ oldHunkMarker :=
  sectionLine_ne_underscore h (str "_old hunk__")

theorem count_map_new_newMarker (ls : List HunkLine) :
    (ls.map renderNewLine).count newHunkMarker = 0 := by
  rw [List.count_eq_zero]
  intro hmem
  obtain ⟨l, _, heq⟩ := List.mem_map.mp hmem
  exact renderNewLine_ne_underscore l (str "_new hunk__") heq

theorem count_map_new_oldMarker (ls : List HunkLine) :
    (ls.map renderNewLine).count oldHunkMarker = 0 := by
  rw [List.count_eq_zero]
  intro hmem
  obtain ⟨l, _, heq⟩ := List.mem_map.mp hmem
  exact renderNewLine_ne_underscore l (str "_old hunk__") heq

theorem count_map_old_newMarker (ls : List HunkLine) :
    (ls.map renderOldLine).count newHunkMarker = 0 := by
  rw [List.count_eq_zero]
  intro hmem
  obtain ⟨l, _, heq⟩ := List.mem_map.mp hmem
  exact renderOldLine_ne_underscore l (str "_new hunk__") heq

theorem count_map_old_oldMarker (ls : List HunkLine) :
    (ls.map renderOldLine).count oldHunkMarker = 0 := by
  rw [List.count_eq_zero]
  intro hmem
  obtain ⟨l, _, heq⟩ := List.mem_map.mp hmem
  exact renderOldLine_ne_underscore l (str "_old hunk__") heq

-- ── C6 ──────────────────────────────────────────────────────────────────────

theorem renderHunkParts_eq (h : DiffHunk) :
    renderHunkParts h =
      [sectionLine h, newHunkMarker] ++ h.new_lines.map renderNewLine
      ++ (if h.removed_lines = [] then []
          else oldHunkMarker :: h.old_lines.map renderOldLine)
      ++ [[]] := by
  unfold renderHunkParts
  rw [filterMap_guard isNewSide renderNewLine, filterMap_guard isOldSide renderOldLine]
  by_cases hrm : h.removed_lines = []
  · simp [hrm, DiffHunk.new_lines, DiffHunk.old_lines]
  · simp [hrm, DiffHunk.new_lines, DiffHunk.old_lines,
          List.isEmpty_iff]

/-- C6: for every hunk, the rendered parts are exactly: the section line,
one `__new hunk__` marker followed by the new-side lines (Addition and
Context, in original order), then — if and only if the hunk has at least
one deletion — one `__old hunk__` marker followed by the old-side lines
(Deletion and Context), and a closing blank line.  In particular the
parts contain exactly one `__new hunk__` marker, and exactly one
`__old hunk__` marker when a deletion exists (none otherwise). -/
theorem c6_hunk_blocks (h : DiffHunk) :
    renderHunkParts h =
      [sectionLine h, newHunkMarker] ++ h.new_lines.map renderNewLine
      ++ (if h.removed_lines = [] then []
          else oldHunkMarker :: h.old_lines.map renderOldLine)
      ++ [[]] ∧
    (renderHunkParts h).count newHunkMarker = 1 ∧
    (renderHunkParts h).count oldHunkMarker
      = (if h.removed_lines = [] then 0 else 1) := by
  have hstruct := renderHunkParts_eq h
  have hne1 : (sectionLine h == newHunkMarker) = false :=
    beq_eq_false_iff_ne.mpr (sectionLine_ne_newMarker h)
  have hne2 : (sectionLine h == oldHunkMarker) = false :=
    beq_eq_false_iff_ne.mpr (sectionLine_ne_oldMarker h)
  have hne3 : ¬(newHunkMarker = ([] : Str)) := by decide
  have hne4 : ¬(oldHunkMarker = ([] : Str)) := by decide
  have hne5 : ¬(newHunkMarker = oldHunkMarker) := by decide
  have hne6 : ¬(oldHunkMarker = newHunkMarker) := by decide
  refine ⟨hstruct, ?_, ?_⟩
  · rw [hstruct]
    by_cases hrm : h.removed_lines = [] <;>
      simp [hrm, List.count_append, List.count_cons, hne1, hne3, hne6,
            count_map_new_newMarker, count_map_old_newMarker]
  · rw [hstruct]
    by_cases hrm : h.removed_lines = [] <;>
      simp [hrm, List.count_append, List.count_cons, hne2, hne4, hne5,
            count_map_new_oldMarker, count_map_old_oldMarker]

-- ── C7: amended ─────────────────────────────────────────────────────────────

/-- C7 (amended): every Addition or Context line of a hunk is emitted in
the `__new hunk__` block; its text is the new-file line number
right-aligned to a minimum width of 4 when present and nonzero, but a
blank 4-space field when the number is missing or 0 (Python's falsy
coercion `line_number_new or ""`), followed by a space, `+` for
additions or a space for context, then the line content. -/
theorem c7_new_line_format (h : DiffHunk) (l : HunkLine)
    (hmem : l ∈ h.lines) (hside : isNewSide l = true) :
    renderNewLine l ∈ renderHunkParts h ∧
    ((l.line_number_new = none ∨ l.line_number_new = some 0) →
      renderNewLine l = List.replicate 4 ' '
        ++ [' ', if l.pfx = '+' then '+' else ' '] ++ l.content) ∧
    (∀ n, l.line_number_new = some n → n ≠ 0 →
      renderNewLine l = padLeft4 (natDigits n)
        ++ [' ', if l.pfx = '+' then '+' else ' '] ++ l.content) := by
  refine ⟨?_, ?_, ?_⟩
  · have hmm : renderNewLine l ∈ h.new_lines.map renderNewLine :=
      List.mem_map_of_mem _ (List.mem_filter.mpr ⟨hmem, hside⟩)
    rw [renderHunkParts_eq h]
    simp only [List.cons_append, List.nil_append, List.mem_cons, List.mem_append]
    tauto
  · intro hc
    rcases hc with hc | hc <;> (unfold renderNewLine; rw [hc]; rfl)
  · intro n hn hn0
    cases n with
    | zero => exact absurd rfl hn0
    | succ m =>
      unfold renderNewLine
      rw [hn]
      rfl

theorem c7_new_line_format_witness :
    (parse_diff c7Diff).head!.hunks.head!.lines.head!
        ∈ (parse_diff c7Diff).head!.hunks.head!.lines ∧
    renderNewLine ((parse_diff c7Diff).head!.hunks.head!.lines.head!)
        ∈ renderHunkParts ((parse_diff c7Diff).head!.hunks.head!) ∧
    renderNewLine ((parse_diff c7Diff).head!.hunks.head!.lines.head!)
      = List.replicate 4 ' '
        ++ [' ', if (parse_diff c7Diff).head!.hunks.head!.lines.head!.pfx = '+' then '+' else ' ']
        ++ (parse_diff c7Diff).head!.hunks.head!.lines.head!.content :=
  ⟨by decide,
   (c7_new_line_format ((parse_diff c7Diff).head!.hunks.head!)
     ((parse_diff c7Diff).head!.hunks.head!.lines.head!) (by decide) (by decide)).1,
   (c7_new_line_format ((parse_diff c7Diff).head!.hunks.head!)
     ((parse_diff c7Diff).head!.hunks.head!.lines.head!) (by decide) (by decide)).2.1
     (Or.inr (by decide))⟩

-- ── C3: amended invariant machinery ─────────────────────────────────────────

theorem stepLine_NoHunks (s : PState) (line : Str) (hs : NoHunksState s)
    (hline : matchHunkHeader line = none) : NoHunksState (stepLine s line) := by
  obtain ⟨hp, hc⟩ := hs
  unfold stepLine
  split
  · refine ⟨?_, ?_⟩
    · intro p hmem
      rcases List.mem_append.mp hmem with hm | hm
      · exact hp p hm
      · cases hcur : s.cur with
        | none => rw [hcur] at hm; simp at hm
        | some cp =>
          rw [hcur] at hm
          simp at hm
          subst hm
          obtain ⟨hfp, hoh⟩ := hc cp hcur
          unfold closePatch
          rw [hoh]
          exact hfp
    · intro cp' hcp'
      simp only [Option.some.injEq] at hcp'
      subst hcp'
      exact ⟨rfl, rfl⟩
  · split
    · exact ⟨hp, hc⟩
    · rename_i cp hcur
      split_ifs with h1 h2 h3 h4 h5
      · refine ⟨hp, fun cp' hcp' => ?_⟩
        simp only [Option.some.injEq] at hcp'
        subst hcp'
        exact hc cp hcur
      · refine ⟨hp, fun cp' hcp' => ?_⟩
        simp only [Option.some.injEq] at hcp'
        subst hcp'
        exact hc cp hcur
      · refine ⟨hp, fun cp' hcp' => ?_⟩
        simp only [Option.some.injEq] at hcp'
        subst hcp'
        exact hc cp hcur
      · exact ⟨hp, hc⟩
      · exact ⟨hp, hc⟩
      · split
        · rename_i os oc ns nc sec heq
          rw [hline] at heq
          exact Option.noConfusion heq
        · split
          · exact ⟨hp, hc⟩
          · rename_i h hohc
            rw [(hc cp hcur).2] at hohc
            exact Option.noConfusion hohc

theorem foldl_NoHunks : ∀ (ls : List Str) (s : PState), NoHunksState s →
    (∀ l ∈ ls, matchHunkHeader l = none) → NoHunksState (ls.foldl stepLine s) := by
  intro ls
  induction ls with
  | nil => intro s hs _; exact hs
  | cons l rest ih =>
    intro s hs hall
    exact ih _ (stepLine_NoHunks s l hs (hall l (List.mem_cons_self _ _)))
      (fun l' hl' => hall l' (List.mem_cons_of_mem _ hl'))

-- ── C3: amended ─────────────────────────────────────────────────────────────

/-- C3 (amended): a patch parsed from a diff containing no hunk header
lines — the shape of genuine binary diffs, as witnessed by the concrete
binary diff whose single patch has `is_binary = true` and empty hunks —
has an empty `hunks` sequence; any patch with empty hunks contributes 0
to total additions and deletions, and every patch contributes exactly 1
to the summary's total file count.  (A crafted diff that opens a hunk
before the `Binary files` marker defeats the unconditional invariant:
see the counterexample.) -/
theorem c3_binary_empty_hunks :
    (∀ d, (∀ l ∈ splitNl d, matchHunkHeader l = none) →
      ∀ p ∈ parse_diff d, p.hunks = []) ∧
    (∀ p : FilePatch, p.hunks = [] →
      p.total_additions = 0 ∧ p.total_deletions = 0) ∧
    (∀ ps : List FilePatch, (get_pr_diff_summary ps).total_files = ps.length) ∧
    (parse_diff c3BinDiff).map (fun p => (p.is_binary, p.hunks.length)) = [(true, 0)] := by
  refine ⟨fun d hall p hp => ?_, fun p hemp => ?_, fun ps => rfl, by decide⟩
  · unfold parse_diff at hp
    by_cases hb : isBlank d
    · simp [hb] at hp
    · simp only [hb, Bool.false_eq_true, if_false] at hp
      have hnh : NoHunksState (runLines (splitNl d)) := by
        refine foldl_NoHunks (splitNl d) initPState ?_ hall
        exact ⟨by intro p hm; simp [initPState] at hm,
               by intro cp hm; simp [initPState] at hm⟩
      unfold finalizePState at hp
      rcases List.mem_append.mp hp with hm | hm
      · exact hnh.1 p hm
      · cases hcur : (runLines (splitNl d)).cur with
        | none => rw [hcur] at hm; simp at hm
        | some cp =>
          rw [hcur] at hm
          simp at hm
          subst hm
          obtain ⟨hfp, hoh⟩ := hnh.2 cp hcur
          unfold closePatch
          rw [hoh]
          exact hfp
  · unfold FilePatch.total_additions FilePatch.total_deletions
    rw [hemp]
    exact ⟨rfl, rfl⟩

theorem c3_binary_empty_hunks_witness :
    (∀ l ∈ splitNl c3BinDiff, matchHunkHeader l = none) ∧
    (parse_diff c3BinDiff).head!.hunks = [] ∧
    (parse_diff c3BinDiff).head!.total_additions = 0 :=
  ⟨by decide,
   c3_binary_empty_hunks.1 c3BinDiff (by decide) _ (by decide),
   (c3_binary_empty_hunks.2.1 (parse_diff c3BinDiff).head!
     (c3_binary_empty_hunks.1 c3BinDiff (by decide) _ (by decide))).1⟩

-- ── C2: amended machinery ───────────────────────────────────────────────────

theorem prefTotal_cons (total : Nat) (p : FilePatch) (rest : List FilePatch) (k : Nat) :
    prefTotal total (p :: rest) (k + 1) = prefTotal (total + (emittedSection p).length) rest k := by
  unfold prefTotal
  simp only [List.take_succ_cons, List.map_cons, List.sum_cons]
  omega

theorem prefTotal_one (total : Nat) (p : FilePatch) (rest : List FilePatch) :
    prefTotal total (p :: rest) 1 = total + (emittedSection p).length := by
  unfold prefTotal
  simp

theorem emitted_renderable {p : FilePatch} (hr : renderable p = true) :
    emittedSection p = fileSection p := by
  unfold renderable at hr
  simp only [Bool.and_eq_true, Bool.not_eq_true'] at hr
  unfold emittedSection
  rw [hr.1, hr.2]
  rfl

theorem renderable_false_parts {p : FilePatch} (hr : renderable p = true) :
    p.is_binary = false ∧ should_skip_file p.filename = false := by
  unfold renderable at hr
  simp only [Bool.and_eq_true, Bool.not_eq_true'] at hr
  exact hr

-- ── C2: amended ─────────────────────────────────────────────────────────────

/-- C2 (amended): the renderer appends a non-binary, non-skipped file's
section exactly when doing so keeps the running character total at or
under `max_chars`; binary and skip-filtered placeholder sections are
appended unconditionally (they only count toward the total, bypassing
the budget check).  If every renderable file fits, every file is
emitted; at the first renderable file that would push the total over
`max_chars`, the loop instead emits the single
`[Content truncated - file too large]` placeholder for that file and
emits nothing for any subsequent file. -/
theorem c2_budget_truncation :
    (∀ maxc ps total,
       (∀ k (hk : k < ps.length), renderable ps[k] = true →
          prefTotal total ps (k + 1) ≤ maxc) →
       formatLoop maxc ps total = ps.map emittedSection) ∧
    (∀ maxc ps total k (hk : k < ps.length),
       renderable ps[k] = true →
       prefTotal total ps (k + 1) > maxc →
       (∀ j (hj : j < k), renderable ps[j] = true →
          prefTotal total ps (j + 1) ≤ maxc) →
       formatLoop maxc ps total
         = (ps.take k).map emittedSection ++ [truncSection ps[k]]) := by
  constructor
  · intro maxc ps
    induction ps with
    | nil => intro total _; rfl
    | cons p rest ih =>
      intro total hfits
      by_cases hbin : p.is_binary = true
      · have hemit : emittedSection p = binarySection p := by
          unfold emittedSection; rw [if_pos hbin]
        have hfits' : ∀ k (hk : k < rest.length), renderable rest[k] = true →
            prefTotal (total + (binarySection p).length) rest (k + 1) ≤ maxc := by
          intro k hk hr
          have h2 := hfits (k + 1) (by simp only [List.length_cons]; omega)
            (by simpa using hr)
          rw [prefTotal_cons, hemit] at h2
          exact h2
        simp only [formatLoop]
        rw [if_pos hbin, ih (total + (binarySection p).length) hfits',
            List.map_cons, hemit]
      · by_cases hskip : should_skip_file p.filename = true
        · have hemit : emittedSection p = skipSection p := by
            unfold emittedSection
            rw [if_neg (by simp [hbin]), if_pos hskip]
          have hfits' : ∀ k (hk : k < rest.length), renderable rest[k] = true →
              prefTotal (total + (skipSection p).length) rest (k + 1) ≤ maxc := by
            intro k hk hr
            have h2 := hfits (k + 1) (by simp only [List.length_cons]; omega)
              (by simpa using hr)
            rw [prefTotal_cons, hemit] at h2
            exact h2
          simp only [formatLoop]
          rw [if_neg hbin, if_pos hskip, ih (total + (skipSection p).length) hfits',
              List.map_cons, hemit]
        · have hrp : renderable p = true := by
            unfold renderable
            simp only [Bool.not_eq_true] at hbin hskip
            rw [hbin, hskip]
            rfl
          have hemit : emittedSection p = fileSection p := emitted_renderable hrp
          have hfit0 : total + (fileSection p).length ≤ maxc := by
            have h2 := hfits 0 (by simp) (by simpa using hrp)
            rw [prefTotal_one, hemit] at h2
            exact h2
          have hfits' : ∀ k (hk : k < rest.length), renderable rest[k] = true →
              prefTotal (total + (fileSection p).length) rest (k + 1) ≤ maxc := by
            intro k hk hr
            have h2 := hfits (k + 1) (by simp only [List.length_cons]; omega)
              (by simpa using hr)
            rw [prefTotal_cons, hemit] at h2
            exact h2
          simp only [formatLoop]
          rw [if_neg hbin, if_neg hskip, if_neg (by omega),
              ih (total + (fileSection p).length) hfits', List.map_cons, hemit]
  · intro maxc ps
    induction ps with
    | nil => intro total k hk; exact absurd hk (by simp)
    | cons p rest ih =>
      intro total k hk hr hover hbefore
      cases k with
      | zero =>
        have hrp : renderable p = true := by simpa using hr
        obtain ⟨hbin, hskip⟩ := renderable_false_parts hrp
        have hover' : total + (fileSection p).length > maxc := by
          rw [prefTotal_one, emitted_renderable hrp] at hover
          exact hover
        simp only [formatLoop]
        rw [if_neg (by simp [hbin]), if_neg (by simp [hskip]), if_pos (by omega)]
        simp
      | succ k' =>
        have hk' : k' < rest.length := by
          simp only [List.length_cons] at hk; omega
        have hr' : renderable rest[k'] = true := by simpa using hr
        have hbefore' : ∀ j (hj : j < k'), renderable rest[j] = true →
            prefTotal (total + (emittedSection p).length) rest (j + 1) ≤ maxc := by
          intro j hj hrj
          have h2 := hbefore (j + 1) (by omega) (by simpa using hrj)
          rw [prefTotal_cons] at h2
          exact h2
        have hover' : prefTotal (total + (emittedSection p).length) rest (k' + 1) > maxc := by
          rw [prefTotal_cons] at hover
          exact hover
        have hgoal : formatLoop maxc rest (total + (emittedSection p).length)
            = (rest.take k').map emittedSection ++ [truncSection rest[k']] :=
          ih (total + (emittedSection p).length) k' hk' hr' hover' hbefore'
        by_cases hbin : p.is_binary = true
        · have hemit : emittedSection p = binarySection p := by
            unfold emittedSection; rw [if_pos hbin]
          simp only [formatLoop]
          rw [if_pos hbin, ← hemit, hgoal]
          simp [List.take_succ_cons, hemit]
        · by_cases hskip : should_skip_file p.filename = true
          · have hemit : emittedSection p = skipSection p := by
              unfold emittedSection
              rw [if_neg (by simp [hbin]), if_pos hskip]
            simp only [formatLoop]
            rw [if_neg hbin, if_pos hskip, ← hemit, hgoal]
            simp [List.take_succ_cons, hemit]
          · have hrp : renderable p = true := by
              unfold renderable
              simp only [Bool.not_eq_true] at hbin hskip
              rw [hbin, hskip]
              rfl
            have hemit : emittedSection p = fileSection p := emitted_renderable hrp
            have hfit0 : total + (fileSection p).length ≤ maxc := by
              have h2 := hbefore 0 (by omega) (by simpa using hrp)
              rw [prefTotal_one, hemit] at h2
              exact h2
            simp only [formatLoop]
            rw [if_neg hbin, if_neg hskip, if_neg (by omega), ← hemit, hgoal]
            simp [List.take_succ_cons, hemit]

theorem c2_budget_truncation_witness :
    renderable c2BigPatch = true ∧
    prefTotal 0 [c2BigPatch] 1 > 10 ∧
    formatLoop 10 [c2BigPatch] 0 = [truncSection c2BigPatch] := by
  refine ⟨by decide, by decide, ?_⟩
  have h := c2_budget_truncation.2 10 [c2BigPatch] 0 0 (by decide)
    (by decide) (by decide) (by intro j hj; omega)
  simpa using h
